import Mathlib

/-!
Verification development for the openaq-fetch adapter pair:
`src/adapters/nsw.js` (HTML-table adapter) and the JSON adapter
(`src/unnamed/part_000`, adapter name `au_act`).

The JavaScript sources are shallowly embedded:
* JS numbers are modelled as `Option ℚ` (`none` plays the role of `NaN`);
  floating-point rounding is not exercised by any verified claim.
* moment-timezone values are modelled as a wall-clock calendar date plus a
  fixed zone offset (600 minutes for Australia/Sydney and
  Australia/Melbourne standard time).  Daylight-saving transitions are not
  modelled; every verified claim is invariant under the choice of offset.
* cheerio documents are modelled as structured tables: a list of rows, each
  a list of cells carrying text, inner HTML, classes, an anchor flag and a
  colspan attribute.
* a thrown JS exception is modelled as `Except.error ()`; the Node-style
  completion callback is modelled as the list of calls the handler makes.
-/

deriving instance DecidableEq for Except

namespace OpenaqFetch

/-- JS number, with `none` standing for `NaN`. -/
abbrev JsNum := Option ℚ

/-- Fuel-driven splitter on character lists (the fuel is the input length,
which bounds the number of steps; structural recursion keeps every use
kernel-computable, which the position-based `String.splitOn` is not). -/
def jsSplitFuel (sep : List Char) : Nat → List Char → List (List Char)
  | _, [] => [[]]
  | 0, l => [l]
  | fuel + 1, c :: rest =>
    if sep ≠ [] ∧ List.isPrefixOf sep (c :: rest) then
      [] :: jsSplitFuel sep fuel ((c :: rest).drop sep.length)
    else
      match jsSplitFuel sep fuel rest with
      | [] => [[c]]
      | h :: t => (c :: h) :: t

/-- JS `s.split(sep)` for a nonempty string separator. -/
def jsSplit (s sep : String) : List String :=
  (jsSplitFuel sep.toList s.toList.length s.toList).map String.mk

/-- JS `s.trim()`. -/
def jsTrimChars (s : String) : List Char :=
  ((s.toList.dropWhile (·.isWhitespace)).reverse.dropWhile (·.isWhitespace)).reverse

/-- JS `s.toLowerCase()` (ASCII, which covers every input in scope). -/
def jsToLower (s : String) : String :=
  String.mk (s.toList.map Char.toLower)

/-- Parse a nonempty all-digit string to a natural number. -/
def parseNatDigits (s : String) : Option Nat :=
  if s.toList ≠ [] ∧ s.toList.all (·.isDigit) then
    some (s.toList.foldl (fun a c => 10 * a + (c.toNat - 48)) 0)
  else none

/-- Unsigned decimal numeral (optionally with a fractional part), as accepted
by the JS `Number` coercion on trimmed strings.  Exponent and hexadecimal
forms are not modelled (no input of the adapters uses them). -/
def parseUnsignedDec (t : String) : Option ℚ :=
  match jsSplit t "." with
  | [a] => (parseNatDigits a).map (fun n => (n : ℚ))
  | [a, b] =>
    if a = "" ∧ b = "" then none
    else
      match (if a = "" then some 0 else parseNatDigits a),
            (if b = "" then some 0 else parseNatDigits b) with
      | some ia, some ib =>
        some (mkRat ((ia : Int) * 10 ^ b.length + (ib : Int)) (10 ^ b.length))
      | _, _ => none
  | _ => none

/-- JS `Number(string)`: trims whitespace, the empty string is `0`,
otherwise a signed decimal numeral; anything else is `NaN` (`none`). -/
def toNumber (s : String) : JsNum :=
  match jsTrimChars s with
  | [] => some 0
  | '-' :: rest => (parseUnsignedDec (String.mk rest)).map (fun q => -q)
  | '+' :: rest => parseUnsignedDec (String.mk rest)
  | l => parseUnsignedDec (String.mk l)

/-- JS `<` on numbers: any comparison involving `NaN` is false. -/
def jsLt (a b : JsNum) : Bool :=
  match a, b with
  | some x, some y => decide (x < y)
  | _, _ => false

/-- JS `Number(v)` for a value that is either `null` (`none`) or a string:
`Number(null) = 0`. -/
def jsNumberOfNullable : Option String → JsNum
  | none => some 0
  | some s => toNumber s

/-- JS `Number(v)` for a value that is either `undefined` (`none`) or a
string: `Number(undefined) = NaN`. -/
def jsNumberOfUndefOr : Option String → JsNum
  | none => none
  | some s => toNumber s

/-- JS `ts[i] + ts[j]` on an array of strings: if `ts[j]` is out of range the
`undefined` operand stringifies to `"undefined"`; if `ts[i]` is out of range
both operands are `undefined` and the sum is the number `NaN`, which
stringifies to `"NaN"` in any later string concatenation. -/
def jsConcatIdx (ts : List String) (i j : Nat) : String :=
  match ts[i]?, ts[j]? with
  | some a, some b => a ++ b
  | some a, none => a ++ "undefined"
  | none, _ => "NaN"

/-! ## Calendar and moment-timezone model -/

/-- A wall-clock calendar date-time. -/
structure CalDateTime where
  year : Nat
  month : Nat
  day : Nat
  hour : Nat
  minute : Nat
  second : Nat
deriving DecidableEq, Repr

def isLeapYear (y : Nat) : Bool :=
  y % 4 = 0 && (y % 100 ≠ 0 || y % 400 = 0)

def daysInMonth (y m : Nat) : Nat :=
  if m = 2 then (if isLeapYear y then 29 else 28)
  else if m = 4 ∨ m = 6 ∨ m = 9 ∨ m = 11 then 30
  else 31

/-- The next calendar day (what `moment.add(1, 'day')` does to the
wall-clock date). -/
def nextDayCal (c : CalDateTime) : CalDateTime :=
  if c.day < daysInMonth c.year c.month then { c with day := c.day + 1 }
  else if c.month < 12 then { c with month := c.month + 1, day := 1 }
  else { c with year := c.year + 1, month := 1, day := 1 }

/-- The previous calendar day (what `moment.subtract(1, 'day')` does to the
wall-clock date). -/
def prevDayCal (c : CalDateTime) : CalDateTime :=
  if 1 < c.day then { c with day := c.day - 1 }
  else if 1 < c.month then
    { c with month := c.month - 1, day := daysInMonth c.year (c.month - 1) }
  else { c with year := c.year - 1, month := 12, day := daysInMonth (c.year - 1) 12 }

def addDaysCal (n : Nat) (c : CalDateTime) : CalDateTime :=
  nextDayCal^[n] c

def subDaysCal (n : Nat) (c : CalDateTime) : CalDateTime :=
  prevDayCal^[n] c

/-- Days since 1970-01-01 of a civil date (Hinnant's `days_from_civil`,
specialised to positive years). -/
def daysFromCivil (y m d : Nat) : Int :=
  let yy := if m ≤ 2 then y - 1 else y
  let era := yy / 400
  let yoe := yy % 400
  let mp := (m + 9) % 12
  let doy := (153 * mp + 2) / 5 + d - 1
  let doe := yoe * 365 + yoe / 4 - yoe / 100 + doy
  (era : Int) * 146097 + (doe : Int) - 719468

/-- Seconds since the epoch of a wall-clock date read as UTC. -/
def epochSecs (c : CalDateTime) : Int :=
  daysFromCivil c.year c.month c.day * 86400 +
    (c.hour : Int) * 3600 + (c.minute : Int) * 60 + (c.second : Int)

/-- A zone-resolved moment: wall-clock time plus the UTC offset (minutes)
in force.  A rendered `moment.format()` string (ISO-8601 with offset)
carries exactly this information. -/
structure ZonedTime where
  wall : CalDateTime
  offsetMinutes : Int
deriving DecidableEq, Repr

/-- The absolute instant (epoch seconds) a zoned time denotes. -/
def instantOf (z : ZonedTime) : Int :=
  epochSecs z.wall - z.offsetMinutes * 60

/-- A moment value; `none` is an invalid moment (failed parse). -/
abbrev Moment := Option ZonedTime

def momentAddDays (m : Moment) (n : Nat) : Moment :=
  m.map (fun z => { z with wall := addDaysCal n z.wall })

/-- The `{utc, local}` pair both adapters build from one parsed moment:
`utc` is `date.toDate()` (the absolute instant, `none` for an Invalid
Date) and `localTime` is the JS `local` field, `date.format()` (the
zone-local rendering, `none` for the string `"Invalid date"`).  The JS
field is called `local`, a reserved word in Lean. -/
structure DateOut where
  utc : Option Int
  localTime : Moment
deriving DecidableEq, Repr

def dateOutOfMoment (m : Moment) : DateOut :=
  { utc := m.map instantOf, localTime := m }

/-- Fixed UTC offset (minutes) used for Australia/Sydney and
Australia/Melbourne: +10:00 standard time.  Daylight saving is not
modelled; no verified claim depends on the offset value. -/
def australiaEastOffsetMinutes : Int := 600

def monthFromName (s : String) : Option Nat :=
  if s = "January" then some 1 else if s = "February" then some 2
  else if s = "March" then some 3 else if s = "April" then some 4
  else if s = "May" then some 5 else if s = "June" then some 6
  else if s = "July" then some 7 else if s = "August" then some 8
  else if s = "September" then some 9 else if s = "October" then some 10
  else if s = "November" then some 11 else if s = "December" then some 12
  else none

/-- Parse with moment format `'D MMMM YYYYha'` (e.g. `"13 December 201912am"`:
day, month name, then a token of four year digits, one or two hour digits
and an `am`/`pm` marker, the day/month/year tokens separated by spaces). -/
def parseDMMMMYYYYha (s : String) : Option CalDateTime :=
  match jsSplit s " " with
  | [dTok, mTok, yTok] =>
    match parseNatDigits dTok, monthFromName mTok with
    | some day, some month =>
      let yChars := yTok.toList.take 4
      let rest := yTok.toList.drop 4
      let hChars := rest.takeWhile (·.isDigit)
      let aStr := String.mk (rest.dropWhile (·.isDigit))
      match parseNatDigits (String.mk yChars), parseNatDigits (String.mk hChars) with
      | some year, some hour12 =>
        if yChars.length = 4 ∧ 1 ≤ hChars.length ∧ hChars.length ≤ 2 then
          if aStr = "am" then
            some ⟨year, month, day, if hour12 = 12 then 0 else hour12, 0, 0⟩
          else if aStr = "pm" then
            some ⟨year, month, day, if hour12 = 12 then 12 else hour12 + 12, 0, 0⟩
          else none
        else none
      | _, _ => none
    | _, _ => none
  | _ => none

/-- Parse an ISO `YYYY-MM-DDTHH:mm:ss` local timestamp. -/
def parseISOCal (s : String) : Option CalDateTime :=
  match jsSplit s "T" with
  | [dPart, tPart] =>
    match jsSplit dPart "-", jsSplit tPart ":" with
    | [ys, ms, ds], [hs, mins, secs] =>
      match parseNatDigits ys, parseNatDigits ms, parseNatDigits ds,
            parseNatDigits hs, parseNatDigits mins, parseNatDigits secs with
      | some y, some mo, some d, some h, some mi, some sec =>
        if ys.length = 4 then some ⟨y, mo, d, h, mi, sec⟩ else none
      | _, _, _, _, _, _ => none
    | _, _ => none
  | _ => none

/-- `moment.tz(s, 'D MMMM YYYYha', 'Australia/Melbourne')`. -/
def momentDMY (s : String) : Moment :=
  (parseDMMMMYYYYha s).map (fun c => ⟨c, australiaEastOffsetMinutes⟩)

/-- `moment.tz(s, 'Australia/Sydney')` on an ISO timestamp (or `undefined`,
which yields an invalid moment). -/
def momentISOSydney (s : Option String) : Moment :=
  (s.bind parseISOCal).map (fun c => ⟨c, australiaEastOffsetMinutes⟩)

/-- Zero-padded decimal rendering. -/
def pad2 (n : Nat) : String :=
  if n < 10 then "0" ++ toString n else toString n

def pad4 (n : Nat) : String :=
  if n < 10 then "000" ++ toString n
  else if n < 100 then "00" ++ toString n
  else if n < 1000 then "0" ++ toString n
  else toString n

/-- moment `format('YYYY-MM-DDTHH:mm:ss')` of a wall-clock date. -/
def fmtISOLocal (c : CalDateTime) : String :=
  pad4 c.year ++ "-" ++ pad2 c.month ++ "-" ++ pad2 c.day ++ "T" ++
    pad2 c.hour ++ ":" ++ pad2 c.minute ++ ":" ++ pad2 c.second

/-! ## Canonical measurement model

Every field is an `Option`: `none` means the adapter never assigned the
field (so the emitted object lacks the key). -/

structure Attribution where
  name : String
  url : String
deriving DecidableEq, Repr

structure AvgPeriod where
  value : JsNum
  unit : String
deriving DecidableEq, Repr

structure Coordinates where
  latitude : JsNum
  longitude : JsNum
deriving DecidableEq, Repr

structure Measurement where
  location : Option String
  city : Option String
  country : Option String
  date : Option DateOut
  sourceName : Option String
  sourceType : Option String
  mobile : Option Bool
  coordinates : Option Coordinates
  attribution : Option (List Attribution)
  averagingPeriod : Option AvgPeriod
  parameter : Option String
  value : Option JsNum
  unit : Option String
deriving DecidableEq, Repr

/-- The object each formatter returns: `{name: 'unused', measurements}`. -/
structure FormatResult where
  name : String
  measurements : List Measurement
deriving DecidableEq, Repr

/-- The source descriptor handed to `fetchData`. -/
structure Source where
  name : String
  url : String
deriving DecidableEq, Repr

/-- The full canonical schema of §3 of the spec: every field present. -/
def conformsCanonical (m : Measurement) : Prop :=
  m.location.isSome = true ∧ m.city.isSome = true ∧ m.country.isSome = true ∧
  m.date.isSome = true ∧ m.sourceName.isSome = true ∧ m.sourceType.isSome = true ∧
  m.mobile.isSome = true ∧ m.coordinates.isSome = true ∧ m.attribution.isSome = true ∧
  m.averagingPeriod.isSome = true ∧ m.parameter.isSome = true ∧
  m.value.isSome = true ∧ m.unit.isSome = true

instance (m : Measurement) : Decidable (conformsCanonical m) := by
  unfold conformsCanonical; infer_instance

/-! ## JSON adapter (`au_act`, `src/unnamed/part_000`) -/

/-- A GPS sub-object of a raw row; fields may be absent (`undefined`). -/
structure Gps where
  latitude : Option String
  longitude : Option String
deriving DecidableEq, Repr

/-- A raw JSON row.  Pollutant readings and GPS coordinates are modelled as
strings fed to the JS `Number` coercion (`toNumber`); a JSON number behaves
as its decimal spelling.  `none` means the key is absent from the row. -/
structure RowAu where
  name : Option String
  datetime : Option String
  gps : Option Gps
  no2 : Option String
  o3_1hr : Option String
  co : Option String
  pm10 : Option String
  pm2_5 : Option String
deriving DecidableEq, Repr

/-- `row[k]` for the recognized pollutant keys. -/
def readKey (r : RowAu) (k : String) : Option String :=
  if k = "no2" then r.no2
  else if k = "o3_1hr" then r.o3_1hr
  else if k = "co" then r.co
  else if k = "pm10" then r.pm10
  else if k = "pm2_5" then r.pm2_5
  else none

/-- `Object.keys(types)` in insertion order. -/
def typesKeys : List String := ["no2", "o3_1hr", "co", "pm10", "pm2_5"]

/-- The fixed `types` mapping of the JSON formatter. -/
def typesAuF (k : String) : String :=
  (([("no2", "no2"), ("o3_1hr", "o3"), ("co", "co"),
     ("pm10", "pm10"), ("pm2_5", "pm25")] : List (String × String)).lookup k).getD ""

/-- The fixed `units` lookup of the JSON formatter. -/
def unitsAuF (p : String) : Option String :=
  ([("no2", "ppm"), ("o3", "ppm"), ("co", "ppm"),
    ("pm10", "µg/m³"), ("pm25", "µg/m³")] : List (String × String)).lookup p

/-- The recognized keys present in a row. -/
def presentKeys (r : RowAu) : List String :=
  typesKeys.filter (fun k => (readKey r k).isSome)

def actAttributionName : String := "Health Protection Service, ACT Government"

def actAttributionUrl : String :=
  "https://www.data.act.gov.au/Environment/Air-Quality-Monitoring-Data/94a5-zqnn"

/-- `parseDate` of the JSON formatter: one timezone-aware parse of the
source timestamp with both output fields taken from it. -/
def parseDate_auact (s : Option String) : DateOut :=
  dateOutOfMoment (momentISOSydney s)

/-- The `baseMeasurement` template of the JSON formatter (building it
accesses `row.gps.latitude`, so it presupposes `gps` is present). -/
def auBase (source : Source) (row : RowAu) (g : Gps) : Measurement :=
  { location := row.name
    city := some "Canberra"
    country := some "AU"
    date := some (parseDate_auact row.datetime)
    sourceName := some source.name
    sourceType := some "government"
    mobile := some false
    coordinates := some ⟨jsNumberOfUndefOr g.latitude, jsNumberOfUndefOr g.longitude⟩
    attribution := some [⟨actAttributionName, actAttributionUrl⟩]
    averagingPeriod := some ⟨some 1, "hours"⟩
    parameter := none
    value := none
    unit := none }

/-- `cloneDeep(baseMeasurement)` followed by the per-key assignments. -/
def mkAuMeasurement (base : Measurement) (row : RowAu) (k : String) : Measurement :=
  { base with
      parameter := some (typesAuF k)
      value := some (jsNumberOfUndefOr (readKey row k))
      unit := unitsAuF (typesAuF k) }

/-- One iteration of the row loop of the JSON `formatData`: build the base
measurement (accessing `row.gps.latitude` throws when `gps` is absent),
then clone it once per recognized pollutant key present in the row. -/
def measurementsOfRow (source : Source) (row : RowAu) : Except Unit (List Measurement) :=
  match row.gps with
  | none => .error ()
  | some g =>
    .ok (typesKeys.filterMap (fun k =>
      if (readKey row k).isSome then some (mkAuMeasurement (auBase source row g) row k)
      else none))

/-- The accumulation over all rows (`data.forEach`); an exception anywhere
aborts the whole formatting pass. -/
def auGo (source : Source) : List RowAu → Except Unit (List Measurement)
  | [] => .ok []
  | r :: rest =>
    match measurementsOfRow source r with
    | .error e => .error e
    | .ok ml =>
      match auGo source rest with
      | .error e => .error e
      | .ok tail => .ok (ml ++ tail)

/-- The JSON `formatData`.  The final lodash `flatten` is a no-op on the
already-flat accumulated list. -/
def formatData_auact (source : Source) (rows : List RowAu) : Except Unit FormatResult :=
  match auGo source rows with
  | .error e => .error e
  | .ok ms => .ok { name := "unused", measurements := ms }

/-- `timeAgo`: the current Sydney wall-clock time (the `now` argument)
minus one day, rendered with `format('YYYY-MM-DDTHH:mm:ss')`. -/
def timeAgo_auact (now : CalDateTime) : String :=
  fmtISOLocal (subDaysCal 1 now)

structure HttpRequest where
  uri : String
  qs : List (String × String)
deriving DecidableEq, Repr

/-- The HTTP request issued by the JSON adapter `fetchData` (its `request`
options object): the source url plus the `$query` string built by template
interpolation around `timeAgo`. -/
def request_auact (source : Source) (now : CalDateTime) : HttpRequest :=
  { uri := source.url
    qs := [("$query",
      "select *, :id where (`datetime` > \x27" ++ timeAgo_auact now ++
        "\x27) order by `datetime` desc limit 1000")] }

/-! A small SoQL query fragment: AST, renderer and (spec-modelled)
selection semantics, used to state what the `$query` parameter means. -/

structure SoqlQuery where
  gtField : String
  gtValue : String
  orderField : String
  orderDesc : Bool
  limit : Nat
deriving DecidableEq, Repr

/-- Renderer for the SoQL fragment shape used by the adapter. -/
def renderSoql (q : SoqlQuery) : String :=
  ("select *, :id where (`" ++ q.gtField ++ "` > \x27") ++ q.gtValue ++
    ("\x27) order by `" ++ q.orderField ++ "` " ++
      (if q.orderDesc then "desc" else "asc") ++ " limit " ++ toString q.limit)

/-- A row as seen by the query endpoint: its `datetime` string and an
abstract payload. -/
abbrev SodaRow := String × String

def insertDescBy (r : SodaRow) : List SodaRow → List SodaRow
  | [] => [r]
  | x :: xs => if x.1 ≤ r.1 then r :: x :: xs else x :: insertDescBy r xs

def sortDescBy (l : List SodaRow) : List SodaRow :=
  l.foldr insertDescBy []

/-- Modelled from the spec: the SODA endpoint executing the query is an
external collaborator (§6: "a filter-and-sort expression (rows newer than
'yesterday' in a fixed timezone, descending by timestamp, capped at 1000
rows)").  Selection semantics of the rendered query: keep the rows whose
`datetime` is strictly greater than the bound, sort descending, truncate. -/
def evalSoql (q : SoqlQuery) (rows : List SodaRow) : List SodaRow :=
  let filtered := rows.filter (fun r => decide (q.gtValue < r.1))
  let sorted := if q.orderDesc then sortDescBy filtered else (sortDescBy filtered).reverse
  sorted.take q.limit

/-- The query AST the adapter's `$query` string renders. -/
def auQueryAst (now : CalDateTime) : SoqlQuery :=
  { gtField := "datetime"
    gtValue := timeAgo_auact now
    orderField := "datetime"
    orderDesc := true
    limit := 1000 }

/-! ## HTML-table adapter (`nsw`, `src/adapters/nsw.js`)

A cheerio document is modelled as the parsed table: the inner HTML of the
`td.date` header cell (`none` when the selector matches nothing, in which
case `.html()` is `null`) and the rows of `table.aqi`, each row a list of
cells. -/

structure Cell where
  colspan : Option String
  text : String
  html : String
  hasAnchor : Bool
  classes : List String
deriving DecidableEq, Repr

structure HtmlDoc where
  dateHtml : Option String
  rows : List (List Cell)
deriving DecidableEq, Repr

structure IndexParam where
  col : Nat
  parameter : String
  avgPeriod : Option String
deriving DecidableEq, Repr

/-- `Number($(this).attr('colspan')) || 1`: a missing attribute gives `NaN`
and the `|| 1` default, `0` likewise falls back to `1`.  Colspan attributes
are whole-number strings; other spellings also fall back to `1`. -/
def colIncrement (c : Cell) : Nat :=
  match c.colspan.bind (fun s => parseNatDigits (String.mk (jsTrimChars s))) with
  | some n => if n = 0 then 1 else n
  | none => 1

/-- `html.match(new RegExp('</a><br>+(.+)'))[1]`: find the earliest
occurrence of `</a><br` followed by at least one `>`, and capture greedily
to the end of the line.  When the capture would be empty the `>`-run
backtracks one character if it can.  `none` models the `null` match result
(on which the JS index access `[1]` throws). -/
def anchorGo : List Char → Option String
  | [] => none
  | c :: rest =>
    if List.isPrefixOf "</a><br".toList (c :: rest) then
      let after := (c :: rest).drop 7
      let gts := after.takeWhile (fun ch => ch = '>')
      let tail := after.dropWhile (fun ch => ch = '>')
      let cap := tail.takeWhile (fun ch => ch ≠ '\n')
      if 1 ≤ gts.length then
        if 1 ≤ cap.length then some (String.mk cap)
        else if 2 ≤ gts.length then some ">"
        else anchorGo rest
      else anchorGo rest
    else anchorGo rest

def anchorCapture (s : String) : Option String :=
  anchorGo s.toList

/-- `html.match(new RegExp('([0-9]+)-hour'))`: capture the digit run of the
earliest digits-then-`-hour` occurrence. -/
def hourGo : List Char → Option String
  | [] => none
  | c :: rest =>
    let ds := (c :: rest).takeWhile (·.isDigit)
    if ds ≠ [] ∧ List.isPrefixOf "-hour".toList ((c :: rest).drop ds.length) then
      some (String.mk ds)
    else hourGo rest

def hourPeriodMatch (s : String) : Option String :=
  hourGo s.toList

/-- JS `String.replace('.', '')` with a string pattern: remove only the
first occurrence. -/
def replaceFirstDot (s : String) : String :=
  match jsSplit s "." with
  | [] => s
  | [a] => a
  | a :: b :: rest => a ++ b ++ String.join (rest.map (fun p => "." ++ p))

/-- cheerio `$('.cls', row).text()`: concatenated text of the row's cells
bearing the class. -/
def textOfClass (row : List Cell) (cls : String) : String :=
  String.join ((row.filter (fun c => cls ∈ c.classes)).map (·.text))

def hasClassInRow (row : List Cell) (cls : String) : Bool :=
  row.any (fun c => cls ∈ c.classes)

/-- The fixed `units` table of the HTML adapter. -/
def unitsNswF (p : String) : Option String :=
  ([("o3", "pphm"), ("no2", "pphm"), ("co", "ppm"),
    ("neph", "Bsp, 10-4 m-1"), ("so2", "pphm"),
    ("pm25", "µg/m³"), ("pm10", "µg/m³")] : List (String × String)).lookup p

def nswAttributionName : String :=
  "State of New South Wales (Department of Planning, Industry and Environment)"

def nswAttributionUrl : String := "https://www.dpie.nsw.gov.au/"

/-- `parseDate` of the HTML adapter: split the header cell on `<br>`, read
the end-of-range time as `timeString[2] + timeString[3]`, add one day when
it reads `12am`, and take both output fields from the one parsed moment. -/
def parseDate_nsw (dateHtml : Option String) : Except Unit DateOut :=
  match dateHtml with
  | none => .error ()
  | some s =>
    let d := jsSplit s "<br>"
    match d[2]? with
    | none => .error ()
    | some part2 =>
      let ts := jsSplit part2 " "
      let time := jsConcatIdx ts 2 3
      let dateOffset := if time = "12am" then 1 else 0
      let date := momentDMY ((d[1]?.getD "") ++ time)
      .ok (dateOutOfMoment (momentAddDays date dateOffset))

/-- The full coordinates table of `src/adapters/nsw.js`.  The decimal
numbers are kept in their source spelling and read with the exact decimal
parser `toNumber` (kernel-computable, unlike the `OfScientific` rational
literals). -/
def coordinatesPairs : List (String × String × String) :=
  [("Bargo", "-34.3075", "150.58"),
   ("Bringelly", "-33.9194444", "150.7611111"),
   ("Camden", "-34.0416667", "150.6902778"),
   ("Campbelltown West", "-34.0666667", "150.7952778"),
   ("Liverpool", "-33.9327778", "150.9058333"),
   ("Oakdale", "-34.0530556", "150.4972222"),
   ("Chullora", "-33.8938889", "151.0452778"),
   ("Earlwood", "-33.9177778", "151.1347222"),
   ("Lindfield", "-33.7827778", "151.1500000"),
   ("Randwick", "-33.9333333", "151.2419444"),
   ("Rozelle", "-33.8658333", "151.1625"),
   ("Prospect", "-33.7947222", "150.9125"),
   ("Richmond", "-33.6183333", "150.7458333"),
   ("Vineyard", "-33.6577778", "150.8466667"),
   ("St Marys", "-33.7972222", "150.7658333"),
   ("Albion Park Sth", "-34.5805556", "150.7816667"),
   ("Kembla Grange", "-34.4763889", "150.8175"),
   ("Wollongong", "-34.4186111", "150.8863889"),
   ("Muswellbrook", "-32.2716667", "150.8858333"),
   ("Beresfield", "-32.7983333", "151.66"),
   ("Newcastle", "-32.9325", "151.7583333"),
   ("Wallsend", "-32.8961111", "151.6691667"),
   ("Albury", "-36.0516667", "146.9741667"),
   ("Wagga Wagga Nth", "-35.1044444", "147.3602778"),
   ("Bathurst", "-33.4033333", "149.5733333"),
   ("Tamworth", "-31.1105556", "150.9141667"),
   ("Wyong", "-32.195", "150.6736111"),
   ("Singleton", "-32.5297222", "151.1497222"),
   ("Cook And Phillip", "-33.872500", "151.213333"),
   ("Macquarie Park", "-33.765278", "151.117806"),
   ("Parramatta North", "-33.799444", "150.997778"),
   ("Rouse Hill", "-33.682778", "150.903611"),
   ("Orange", "-33.274444", "149.094444"),
   ("Armidale", "-30.508333", "151.661389"),
   ("Gunnedah", "-30.981667", "150.260556"),
   ("Narrabri", "-30.318333", "149.829167"),
   ("Goulburn", "-34.734444", "149.724167")]

def coordinatesLookup (site : String) : Option Coordinates :=
  (coordinatesPairs.lookup site).map (fun p => ⟨toNumber p.1, toNumber p.2⟩)

/-- The shared base measurement built for a site row (`coordinates` only
when the lookup table knows the site). -/
def nswBase (date : DateOut) (city site : String) : Measurement :=
  { location := some site
    city := some city
    country := none
    date := some date
    sourceName := none
    sourceType := none
    mobile := none
    coordinates := coordinatesLookup site
    attribution := some [⟨nswAttributionName, nswAttributionUrl⟩]
    averagingPeriod := none
    parameter := none
    value := none
    unit := none }

/-- Clone of the base with the per-cell fields attached. -/
def mkNswMeasurement (base : Measurement) (p : IndexParam) (text : String) : Measurement :=
  { base with
      parameter := some p.parameter
      unit := unitsNswF p.parameter
      value := some (toNumber text)
      averagingPeriod := some ⟨jsNumberOfNullable p.avgPeriod, "hours"⟩ }

/-- `_.findIndex(indexParams, {col: cc})` followed by the element access. -/
def findColMatch (ips : List IndexParam) (cc : Nat) : Option IndexParam :=
  ips.find? (fun p => p.col == cc)

/-- Row 0 of the table: collect `{col, parameter, avgPeriod: null}` for
every anchor cell; a failing anchor regex match throws. -/
def row0Step (st : Nat × List IndexParam) (c : Cell) : Except Unit (Nat × List IndexParam) :=
  let cc := st.1 + colIncrement c
  if c.hasAnchor then
    match anchorCapture c.html with
    | none => .error ()
    | some raw => .ok (cc, st.2 ++ [⟨cc, jsToLower (replaceFirstDot raw), none⟩])
  else .ok (cc, st.2)

/-- Set the averaging period on the first index-param with the given
column; `none` models the throwing `indexParams[-1].avgPeriod = …`. -/
def setAvgFirst (cc : Nat) (v : String) : List IndexParam → Option (List IndexParam)
  | [] => none
  | p :: ps =>
    if p.col = cc then some ({ p with avgPeriod := some v } :: ps)
    else (setAvgFirst cc v ps).map (fun l => p :: l)

/-- Row 1 of the table: attach the `([0-9]+)-hour` capture to the
index-param of the resolved column. -/
def row1Step (st : Nat × List IndexParam) (c : Cell) : Except Unit (Nat × List IndexParam) :=
  let cc := st.1 + colIncrement c
  match hourPeriodMatch c.html with
  | none => .ok (cc, st.2)
  | some digits =>
    match setAvgFirst cc digits st.2 with
    | none => .error ()
    | some ips => .ok (cc, ips)

/-- The cell sweep of a data row: emit a measurement for every nonempty
cell whose resolved column has an index-param. -/
def cellsCollect (ips : List IndexParam) (base : Measurement) : Nat → List Cell → List Measurement
  | _, [] => []
  | cc, c :: rest =>
    let cc2 := cc + colIncrement c
    match findColMatch ips cc2 with
    | some p =>
      if c.text ≠ "" then mkNswMeasurement base p c.text :: cellsCollect ips base cc2 rest
      else cellsCollect ips base cc2 rest
    | none => cellsCollect ips base cc2 rest

/-- A data row (row index ≥ 2): only rows with a `.site` cell produce
measurements; the region is carried forward across rows lacking a
`.region` cell, which also shifts the column counter by one. -/
def dataRow (date : DateOut) (ips : List IndexParam) (region : String)
    (ms : List Measurement) (row : List Cell) : String × List Measurement :=
  if hasClassInRow row "site" then
    let regionString := textOfClass row "region"
    let region2 := if regionString = "" then region else regionString
    let cc0 : Nat := if hasClassInRow row "region" then 0 else 1
    let site := textOfClass row "site"
    let base := nswBase date region2 site
    (region2, ms ++ cellsCollect ips base cc0 row)
  else (region, ms)

/-- The indexed row dispatch of the HTML `formatData` (row 0 = pollutant
names, row 1 = averaging periods, rows ≥ 2 = data). -/
def rowsGo (date : DateOut) : Nat → List IndexParam → String → List Measurement →
    List (List Cell) → Except Unit (List IndexParam × String × List Measurement)
  | _, ips, region, ms, [] => .ok (ips, region, ms)
  | idy, ips, region, ms, row :: rest =>
    if idy = 0 then
      match row.foldlM row0Step (0, ips) with
      | .error e => .error e
      | .ok st => rowsGo date (idy + 1) st.2 region ms rest
    else if idy = 1 then
      match row.foldlM row1Step (0, ips) with
      | .error e => .error e
      | .ok st => rowsGo date (idy + 1) st.2 region ms rest
    else
      let rm := dataRow date ips region ms row
      rowsGo date (idy + 1) ips rm.1 rm.2 rest

/-- The lodash `_.matches({'parameter': …, 'location': …})` test of the
deduplication pass. -/
def sameKey (a b : Measurement) : Prop :=
  a.parameter = b.parameter ∧ a.location = b.location

instance (a b : Measurement) : Decidable (sameKey a b) := by
  unfold sameKey; infer_instance

/-- `_.findIndex(finalMeasurements, _.matches(…))`, returning the index
together with the element found. -/
def findMatch (m : Measurement) : List Measurement → Option (Nat × Measurement)
  | [] => none
  | x :: xs =>
    if sameKey x m then some (0, x)
    else (findMatch m xs).map (fun p => (p.1 + 1, p.2))

/-- One iteration of the deduplication loop: push when the key is new;
when a match exists and the incoming averaging period is strictly smaller,
push the incoming measurement and splice out the match.  Reading
`averagingPeriod.value` on a measurement lacking `averagingPeriod`
throws. -/
def dedupStep (fm : List Measurement) (m : Measurement) : Except Unit (List Measurement) :=
  match findMatch m fm with
  | none => .ok (fm ++ [m])
  | some (i, f) =>
    match m.averagingPeriod, f.averagingPeriod with
    | some ap, some fp =>
      if jsLt ap.value fp.value then .ok ((fm ++ [m]).eraseIdx i) else .ok fm
    | _, _ => .error ()

def dedupGo : List Measurement → List Measurement → Except Unit (List Measurement)
  | fm, [] => .ok fm
  | fm, m :: rest =>
    match dedupStep fm m with
    | .error e => .error e
    | .ok fm2 => dedupGo fm2 rest

/-- The post-processing pass of `formatData` (lines 177–191): keep, per
`(location, parameter)` pair, the measurement with the shortest averaging
period. -/
def dedupShortest (ms : List Measurement) : Except Unit (List Measurement) :=
  dedupGo [] ms

/-- Modelled from the spec: `removeUnwantedParameters` lives in
`src/lib/utils`, which is not under `src/`.  The spec calls it "a
parameter-allowlist filter utility" and fixes the closed enumeration of
parameters ("no2, o3, co, pm10, pm25, so2", §3); modelled as the filter
keeping exactly the measurements whose parameter is in that enumeration. -/
def removeUnwantedParameters (ms : List Measurement) : List Measurement :=
  ms.filter (fun m =>
    match m.parameter with
    | some p => decide (p ∈ (["no2", "o3", "co", "pm10", "pm25", "so2"] : List String))
    | none => false)

/-- Modelled from the spec: `convertUnits` lives in `src/lib/utils` (not
under `src/`); the spec describes it only as "a unit-conversion utility"
that attempts to convert to the Open AQ standard unit.  Its numeric
rewriting of `value`/`unit` is outside every claim verified here, so it is
modelled as the identity map on the measurement list (in particular it
preserves every field no claim lets it change). -/
def convertUnits (ms : List Measurement) : List Measurement :=
  ms.map id

/-- The HTML `formatData`: parse the header date once, run the indexed row
dispatch, deduplicate by shortest averaging period, then apply the two
external utilities and wrap the result. -/
def formatData_nsw (doc : HtmlDoc) : Except Unit FormatResult :=
  match parseDate_nsw doc.dateHtml with
  | .error e => .error e
  | .ok date =>
    match rowsGo date 0 [] "" [] doc.rows with
    | .error e => .error e
    | .ok st =>
      match dedupShortest st.2.2 with
      | .error e => .error e
      | .ok fin =>
        .ok { name := "unused", measurements := convertUnits (removeUnwantedParameters fin) }

/-! ## The `fetchData` callback protocol (both adapters)

A callback invocation `cb(err, data)` is a pair of optional arguments; the
error object is identified with its `message` string.  The handler bodies
of the two adapters are textually identical (nsw lines 26–43, au_act lines
21–36): transport check, then `try { format; undefined-check; cb(null,
data) } catch { cb(unknown error) }`. -/

abbrev CbCall := Option String × Option FormatResult

/-- The list of callback invocations the response handler performs, given
the transport outcome and the outcome of the formatting expression
(`Except.error` = a thrown exception, `.ok none` = the formatter returned
`undefined`). -/
def adapterCallback (err : Bool) (statusCode : Nat)
    (fmt : Except Unit (Option FormatResult)) : List CbCall :=
  if err = true ∨ statusCode ≠ 200 then [(some "Failure to load data url.", none)]
  else
    match fmt with
    | .error _ => [(some "Unknown adapter error.", none)]
    | .ok none => [(some "Failure to parse data.", none)]
    | .ok (some d) => [(none, some d)]

/-- `fetchData` of the HTML adapter, as the callback calls it makes for a
completed request. -/
def fetchDataCalls_nsw (doc : HtmlDoc) (err : Bool) (statusCode : Nat) : List CbCall :=
  adapterCallback err statusCode ((formatData_nsw doc).map some)

/-- The outcome of `formatData(JSON.parse(body), source)` in the JSON
adapter: `body` is the outcome of `JSON.parse` read as a row array, where
`.error` covers both a malformed JSON body and a non-array document (whose
`forEach` throws inside the same `try`). -/
def formatOutcome_auact (source : Source) (body : Except Unit (List RowAu)) :
    Except Unit FormatResult :=
  match body with
  | .error e => .error e
  | .ok rows => formatData_auact source rows

/-- `fetchData` of the JSON adapter, as the callback calls it makes for a
completed request. -/
def fetchDataCalls_auact (source : Source) (body : Except Unit (List RowAu))
    (err : Bool) (statusCode : Nat) : List CbCall :=
  adapterCallback err statusCode ((formatOutcome_auact source body).map some)

/-! ## Concrete sample data used by witnesses and counterexamples -/

/-- A bare measurement carrying only the deduplication-relevant fields. -/
def exMeas (loc par : String) (avg : ℚ) : Measurement :=
  { location := some loc, city := none, country := none, date := none,
    sourceName := none, sourceType := none, mobile := none, coordinates := none,
    attribution := none, averagingPeriod := some ⟨some avg, "hours"⟩,
    parameter := some par, value := none, unit := none }

def exSource : Source := { name := "act-sample", url := "https://example.invalid/data" }

/-- A document whose date header is missing: `parseDate(null)` throws, so
the whole formatting pass throws. -/
def exDocErr : HtmlDoc := { dateHtml := none, rows := [] }

/-- The date the sample header cell parses to: the range end reads `12am`,
so the parsed December 13 rolls over to December 14. -/
def exDate : DateOut :=
  { utc := some 1576245600
    localTime := some ⟨⟨2019, 12, 14, 0, 0, 0⟩, australiaEastOffsetMinutes⟩ }

/-! ## Helper lemmas -/

theorem jsLt_self (v : JsNum) : jsLt v v = false := by
  cases v <;> simp [jsLt]

/-- A callback invocation carries an error or a payload, never both and
never neither. -/
def xorCall (c : CbCall) : Bool :=
  (c.1.isSome && c.2.isNone) || (c.1.isNone && c.2.isSome)

theorem adapterCallback_oneShot (err : Bool) (status : Nat)
    (fmt : Except Unit (Option FormatResult)) :
    (adapterCallback err status fmt).length = 1 ∧
      (adapterCallback err status fmt).all xorCall = true := by
  unfold adapterCallback
  split
  · simp [xorCall]
  · rcases fmt with e | d
    · simp [xorCall]
    · rcases d with _ | d <;> simp [xorCall]

/-! ## Claims -/

/-- C2: for every completed HTTP request in either adapter's `fetchData`,
the completion callback is invoked exactly once, either with an error and
no data or with `null` and a data object — never both, never neither. -/
theorem claim_C2 (doc : HtmlDoc) (source : Source) (body : Except Unit (List RowAu))
    (err : Bool) (status : Nat) :
    ((fetchDataCalls_nsw doc err status).length = 1 ∧
      (fetchDataCalls_nsw doc err status).all xorCall = true) ∧
    ((fetchDataCalls_auact source body err status).length = 1 ∧
      (fetchDataCalls_auact source body err status).all xorCall = true) :=
  ⟨adapterCallback_oneShot _ _ _, adapterCallback_oneShot _ _ _⟩

/-- Witness for C2 at a concrete request outcome. -/
theorem claim_C2_witness :
    ((fetchDataCalls_nsw exDocErr false 200).length = 1 ∧
      (fetchDataCalls_nsw exDocErr false 200).all xorCall = true) ∧
    ((fetchDataCalls_auact exSource (.ok []) false 200).length = 1 ∧
      (fetchDataCalls_auact exSource (.ok []) false 200).all xorCall = true) :=
  claim_C2 exDocErr exSource (.ok []) false 200

/-- C4: a transport error or a non-200 status yields the generic
"Failure to load data url." error and no data, in both adapters,
regardless of the body. -/
theorem claim_C4 (doc : HtmlDoc) (source : Source) (body : Except Unit (List RowAu))
    (err : Bool) (status : Nat) (h : err = true ∨ status ≠ 200) :
    fetchDataCalls_nsw doc err status = [(some "Failure to load data url.", none)] ∧
    fetchDataCalls_auact source body err status =
      [(some "Failure to load data url.", none)] := by
  constructor <;>
    simp only [fetchDataCalls_nsw, fetchDataCalls_auact, adapterCallback, if_pos h]

/-- Witness for C4 at a concrete failed request (status 500). -/
theorem claim_C4_witness :
    fetchDataCalls_nsw exDocErr false 500 = [(some "Failure to load data url.", none)] ∧
    fetchDataCalls_auact exSource (.ok []) false 500 =
      [(some "Failure to load data url.", none)] :=
  claim_C4 exDocErr exSource (.ok []) false 500 (Or.inr (by decide))

/-- C5: whenever the formatting expression throws (malformed JSON body
included), the exception is caught and the callback receives the generic
"Unknown adapter error." with no data: nothing propagates and no partial
list is returned. -/
theorem claim_C5 (doc : HtmlDoc) (source : Source) (body : Except Unit (List RowAu))
    (err : Bool) (status : Nat) (he : err = false) (hs : status = 200) :
    (formatData_nsw doc = .error () →
      fetchDataCalls_nsw doc err status = [(some "Unknown adapter error.", none)]) ∧
    (formatOutcome_auact source body = .error () →
      fetchDataCalls_auact source body err status =
        [(some "Unknown adapter error.", none)]) := by
  subst he hs
  constructor
  · intro hf
    simp [fetchDataCalls_nsw, adapterCallback, hf, Except.map]
  · intro hf
    simp [fetchDataCalls_auact, adapterCallback, hf, Except.map]

/-- Witness for C5: a missing date header makes the HTML formatter throw,
and a malformed JSON body makes the JSON formatting expression throw. -/
theorem claim_C5_witness :
    (formatData_nsw exDocErr = .error () →
      fetchDataCalls_nsw exDocErr false 200 = [(some "Unknown adapter error.", none)]) ∧
    (formatOutcome_auact exSource (.error ()) = .error () →
      fetchDataCalls_auact exSource (.error ()) false 200 =
        [(some "Unknown adapter error.", none)]) :=
  claim_C5 exDocErr exSource (.error ()) false 200 rfl rfl

/-- C6: in both adapters, the `date.utc` and `date.local` fields come from
the single timezone-aware parse of the source timestamp and denote the
same instant: the instant encoded by the local rendering equals `utc`. -/
theorem claim_C6 :
    (∀ s : Option String,
      (parseDate_auact s).localTime.map instantOf = (parseDate_auact s).utc) ∧
    (∀ dh out, parseDate_nsw dh = .ok out →
      out.localTime.map instantOf = out.utc) := by
  constructor
  · intro s; rfl
  · intro dh out h
    rcases dh with _ | s
    · exact absurd h (by simp [parseDate_nsw])
    · rcases h2 : (jsSplit s "<br>")[2]? with _ | part2 <;>
        simp only [parseDate_nsw, h2] at h
      · exact absurd h (by simp)
      · rw [Except.ok.injEq] at h
        subst h
        rfl

/-- Witness for C6 at the sample header string. -/
theorem claim_C6_witness :
    (parseDate_auact (some "2020-01-01T00:00:00")).localTime.map instantOf =
      (parseDate_auact (some "2020-01-01T00:00:00")).utc ∧
    exDate.localTime.map instantOf = exDate.utc :=
  ⟨claim_C6.1 (some "2020-01-01T00:00:00"),
   claim_C6.2 (some "NSW air quality<br>13 December 2019<br>11pm - 12 am") exDate
     (by decide)⟩

theorem mkAuMeasurement_parameter (base : Measurement) (row : RowAu) (k : String) :
    (mkAuMeasurement base row k).parameter = some (typesAuF k) := rfl

theorem filterMap_params (base : Measurement) (row : RowAu) :
    ∀ keys : List String,
      ((keys.filterMap (fun k =>
          if (readKey row k).isSome then some (mkAuMeasurement base row k) else none)).map
          (fun m => m.parameter))
        = (keys.filter (fun k => (readKey row k).isSome)).map (fun k => some (typesAuF k))
  | [] => rfl
  | k :: ks => by
    have ih := filterMap_params base row ks
    by_cases h : (readKey row k).isSome
    · simp [List.filterMap_cons, List.filter_cons, h, mkAuMeasurement_parameter, ih]
    · simp [List.filterMap_cons, List.filter_cons, h, ih]

theorem measurementsOfRow_params (source : Source) (row : RowAu) (l : List Measurement)
    (h : measurementsOfRow source row = .ok l) :
    l.map (fun m => m.parameter) = (presentKeys row).map (fun k => some (typesAuF k)) := by
  unfold measurementsOfRow at h
  rcases hg : row.gps with _ | g <;> simp only [hg] at h
  · exact absurd h (by simp)
  · rw [Except.ok.injEq] at h
    subst h
    exact filterMap_params (auBase source row g) row typesKeys

theorem measurementsOfRow_unit (source : Source) (row : RowAu) (l : List Measurement)
    (h : measurementsOfRow source row = .ok l) :
    ∀ m ∈ l, m.unit = m.parameter.bind unitsAuF := by
  intro m hm
  unfold measurementsOfRow at h
  rcases hg : row.gps with _ | g <;> simp only [hg] at h
  · exact absurd h (by simp)
  · rw [Except.ok.injEq] at h
    subst h
    rcases List.mem_filterMap.mp hm with ⟨k, _, hk⟩
    by_cases hp : (readKey row k).isSome
    · rw [if_pos hp, Option.some.injEq] at hk
      subst hk
      simp [mkAuMeasurement]
    · rw [if_neg hp] at hk
      exact absurd hk (by simp)

theorem auGo_params (source : Source) : ∀ (rows : List RowAu) (ms : List Measurement),
    auGo source rows = .ok ms →
    ms.map (fun m => m.parameter)
      = (rows.map (fun r => (presentKeys r).map (fun k => some (typesAuF k)))).flatten
  | [], ms, h => by
    rw [auGo, Except.ok.injEq] at h
    subst h
    rfl
  | r :: rest, ms, h => by
    rw [auGo] at h
    rcases h1 : measurementsOfRow source r with e | ml <;> simp only [h1] at h
    · exact Except.noConfusion h
    · rcases h2 : auGo source rest with e | tail <;> simp only [h2] at h
      · exact Except.noConfusion h
      · rw [Except.ok.injEq] at h
        subst h
        simp only [List.map_append, List.map_cons, List.flatten_cons]
        rw [measurementsOfRow_params source r ml h1, auGo_params source rest tail h2]

theorem auGo_unit (source : Source) : ∀ (rows : List RowAu) (ms : List Measurement),
    auGo source rows = .ok ms →
    ∀ m ∈ ms, m.unit = m.parameter.bind unitsAuF
  | [], ms, h => by
    rw [auGo, Except.ok.injEq] at h
    subst h
    intro m hm
    exact absurd hm (by simp)
  | r :: rest, ms, h => by
    rw [auGo] at h
    rcases h1 : measurementsOfRow source r with e | ml <;> simp only [h1] at h
    · exact Except.noConfusion h
    · rcases h2 : auGo source rest with e | tail <;> simp only [h2] at h
      · exact Except.noConfusion h
      · rw [Except.ok.injEq] at h
        subst h
        intro m hm
        rcases List.mem_append.mp hm with hml | htl
        · exact measurementsOfRow_unit source r ml h1 m hml
        · exact auGo_unit source rest tail h2 m htl

/-- C3: the JSON formatter emits exactly one measurement per recognized
pollutant key present in each row (in the fixed key order, row-major), and
the unit of every emitted measurement is obtained solely from its
parameter through the fixed unit table, never from the input row. -/
theorem claim_C3 (source : Source) (rows : List RowAu) (res : FormatResult)
    (h : formatData_auact source rows = .ok res) :
    res.measurements.map (fun m => m.parameter)
      = (rows.map (fun r => (presentKeys r).map (fun k => some (typesAuF k)))).flatten ∧
    ∀ m ∈ res.measurements, m.unit = m.parameter.bind unitsAuF := by
  unfold formatData_auact at h
  rcases hg : auGo source rows with e | ms <;> simp only [hg] at h
  · exact Except.noConfusion h
  · rw [Except.ok.injEq] at h
    subst h
    exact ⟨auGo_params source rows ms hg, auGo_unit source rows ms hg⟩

/-- A sample JSON row with two recognized pollutant keys present. -/
def exRow : RowAu :=
  { name := some "Monash", datetime := some "2020-01-01T01:00:00"
    gps := some ⟨some "-35.3", some "149.1"⟩
    no2 := some "0.01", o3_1hr := none, co := none, pm10 := some "10", pm2_5 := none }

def exAuBase : Measurement := auBase exSource exRow ⟨some "-35.3", some "149.1"⟩

def exAuRes : FormatResult :=
  { name := "unused"
    measurements := [mkAuMeasurement exAuBase exRow "no2", mkAuMeasurement exAuBase exRow "pm10"] }

/-- Witness for C3 at a concrete two-pollutant row. -/
theorem claim_C3_witness :
    exAuRes.measurements.map (fun m => m.parameter)
      = (([exRow]).map (fun r => (presentKeys r).map (fun k => some (typesAuF k)))).flatten ∧
    ∀ m ∈ exAuRes.measurements, m.unit = m.parameter.bind unitsAuF :=
  claim_C3 exSource [exRow] exAuRes (by decide)

theorem mem_insertDescBy (r : SodaRow) :
    ∀ (l : List SodaRow) (x : SodaRow), x ∈ insertDescBy r l → x = r ∨ x ∈ l
  | [], x, h => by simpa [insertDescBy] using h
  | y :: ys, x, h => by
    rw [insertDescBy] at h
    by_cases hc : y.1 ≤ r.1
    · rw [if_pos hc] at h
      rcases List.mem_cons.mp h with rfl | h2
      · exact Or.inl rfl
      · exact Or.inr h2
    · rw [if_neg hc] at h
      rcases List.mem_cons.mp h with rfl | h2
      · exact Or.inr (List.mem_cons_self _ _)
      · rcases mem_insertDescBy r ys x h2 with h3 | h3
        · exact Or.inl h3
        · exact Or.inr (List.mem_cons_of_mem _ h3)

theorem mem_sortDescBy :
    ∀ (l : List SodaRow) (x : SodaRow), x ∈ sortDescBy l → x ∈ l
  | [], x, h => absurd h (by simp [sortDescBy])
  | a :: l, x, h => by
    rcases mem_insertDescBy a (sortDescBy l) x h with rfl | h2
    · exact List.mem_cons_self _ _
    · exact List.mem_cons_of_mem _ (mem_sortDescBy l x h2)

theorem pairwise_insertDescBy (r : SodaRow) :
    ∀ l : List SodaRow, l.Pairwise (fun a b => b.1 ≤ a.1) →
      (insertDescBy r l).Pairwise (fun a b => b.1 ≤ a.1)
  | [], _ => by simp [insertDescBy]
  | x :: xs, h => by
    rw [insertDescBy]
    rcases List.pairwise_cons.mp h with ⟨hx, hxs⟩
    by_cases hc : x.1 ≤ r.1
    · rw [if_pos hc]
      refine List.pairwise_cons.mpr ⟨?_, h⟩
      intro b hb
      rcases List.mem_cons.mp hb with rfl | hb2
      · exact hc
      · exact le_trans (hx b hb2) hc
    · rw [if_neg hc]
      refine List.pairwise_cons.mpr ⟨?_, pairwise_insertDescBy r xs hxs⟩
      intro b hb
      rcases mem_insertDescBy r xs b hb with rfl | hb2
      · exact le_of_not_le hc
      · exact hx b hb2

theorem pairwise_sortDescBy :
    ∀ l : List SodaRow, (sortDescBy l).Pairwise (fun a b => b.1 ≤ a.1)
  | [] => by simp [sortDescBy]
  | a :: l => pairwise_insertDescBy a (sortDescBy l) (pairwise_sortDescBy l)

set_option maxHeartbeats 2000000 in
/-- C9: the JSON adapter's single GET goes to `source.url` and carries one
`$query` parameter; that query renders the AST filtering on `datetime`
strictly greater than the Sydney wall-clock `now` minus one calendar day,
ordering by `datetime` descending, limited to 1000 rows — so it selects
only rows newer than that bound, at most 1000 of them, in descending
`datetime` order. -/
theorem claim_C9 (source : Source) (now : CalDateTime) :
    (request_auact source now).uri = source.url ∧
    (request_auact source now).qs = [("$query", renderSoql (auQueryAst now))] ∧
    auQueryAst now =
      { gtField := "datetime", gtValue := fmtISOLocal (subDaysCal 1 now)
        orderField := "datetime", orderDesc := true, limit := 1000 } ∧
    (∀ rows : List SodaRow,
      (∀ r ∈ evalSoql (auQueryAst now) rows,
        fmtISOLocal (subDaysCal 1 now) < r.1 ∧ r ∈ rows) ∧
      (evalSoql (auQueryAst now) rows).length ≤ 1000 ∧
      (evalSoql (auQueryAst now) rows).Pairwise (fun a b => b.1 ≤ a.1)) := by
  refine ⟨rfl, ?_, rfl, ?_⟩
  · simp only [request_auact, renderSoql, auQueryAst]
    rfl
  intro rows
  refine ⟨?_, ?_, ?_⟩
  · intro r hr
    simp only [evalSoql, auQueryAst, if_pos] at hr
    have h2 := mem_sortDescBy _ r (List.mem_of_mem_take hr)
    rcases List.mem_filter.mp h2 with ⟨hrows, hlt⟩
    exact ⟨by simpa using hlt, hrows⟩
  · simp only [evalSoql, auQueryAst, if_pos]
    exact List.length_take_le _ _
  · simp only [evalSoql, auQueryAst, if_pos]
    exact List.Pairwise.sublist (List.take_sublist _ _) (pairwise_sortDescBy _)

/-- Witness for C9 at a concrete source and clock reading. -/
theorem claim_C9_witness :
    (request_auact exSource ⟨2020, 3, 1, 5, 30, 0⟩).uri = exSource.url ∧
    (request_auact exSource ⟨2020, 3, 1, 5, 30, 0⟩).qs =
      [("$query", renderSoql (auQueryAst ⟨2020, 3, 1, 5, 30, 0⟩))] ∧
    auQueryAst ⟨2020, 3, 1, 5, 30, 0⟩ =
      { gtField := "datetime", gtValue := fmtISOLocal (subDaysCal 1 ⟨2020, 3, 1, 5, 30, 0⟩)
        orderField := "datetime", orderDesc := true, limit := 1000 } ∧
    (∀ rows : List SodaRow,
      (∀ r ∈ evalSoql (auQueryAst ⟨2020, 3, 1, 5, 30, 0⟩) rows,
        fmtISOLocal (subDaysCal 1 ⟨2020, 3, 1, 5, 30, 0⟩) < r.1 ∧ r ∈ rows) ∧
      (evalSoql (auQueryAst ⟨2020, 3, 1, 5, 30, 0⟩) rows).length ≤ 1000 ∧
      (evalSoql (auQueryAst ⟨2020, 3, 1, 5, 30, 0⟩) rows).Pairwise (fun a b => b.1 ≤ a.1)) :=
  claim_C9 exSource ⟨2020, 3, 1, 5, 30, 0⟩

def exTieKeep : Measurement := exMeas "P" "no2" 1

def exTieB : Measurement := { exMeas "P" "no2" 5 with city := some "B" }

def exTieC : Measurement := { exMeas "P" "no2" 5 with city := some "C" }

/-- Counterexample to C10 as stated: it is not true that of EVERY same-key
pair with equal averaging periods the earlier one is kept — here a third,
strictly shorter entry for the key wins, so neither member of the equal
pair survives the pass. -/
theorem claim_C10_counterexample :
    dedupShortest [exTieKeep, exTieB, exTieC] = .ok [exTieKeep] ∧
    sameKey exTieB exTieC ∧
    exTieB.averagingPeriod = exTieC.averagingPeriod ∧
    exTieB ∉ [exTieKeep] :=
  ⟨by decide, by decide, by decide, by decide⟩

/-- C10 (amended): in the deduplication pass an equal averaging period
never replaces the incumbent entry — the comparison is strict less-than —
so when two measurements are the accumulated entries for their (location,
parameter) key, the earlier is kept and the later discarded; and when a
strictly shorter period does replace an earlier entry the kept entry is
appended at the end of the result list, not left at the replaced
position. -/
theorem claim_C10 :
    (∀ a b ap bp, sameKey a b → a.averagingPeriod = some ap →
      b.averagingPeriod = some bp → ap.value = bp.value →
      dedupShortest [a, b] = .ok [a]) ∧
    dedupShortest [exMeas "X" "no2" 5, exMeas "Y" "no2" 1, exMeas "X" "no2" 3] =
      .ok [exMeas "Y" "no2" 1, exMeas "X" "no2" 3] := by
  constructor
  · intro a b ap bp hk ha hb hv
    simp only [dedupShortest, dedupGo, dedupStep, findMatch, if_pos hk, Option.map_some,
      List.nil_append, ha, hb, ← hv, jsLt_self]
    simp
  · decide

/-- Witness for C10: two equal 1-hour readings for the same site and
pollutant; the first survives. -/
theorem claim_C10_witness :
    dedupShortest [exMeas "L" "o3" 1, exMeas "L" "o3" 1] = .ok [exMeas "L" "o3" 1] :=
  claim_C10.1 (exMeas "L" "o3" 1) (exMeas "L" "o3" 1) ⟨some 1, "hours"⟩ ⟨some 1, "hours"⟩
    (by decide) rfl rfl rfl

/-! ## Shape of the measurements the HTML formatter produces -/

/-- The fields every measurement built by the HTML formatter carries (and
the canonical-schema fields it never assigns). -/
def NswShapeCore (date : DateOut) (m : Measurement) : Prop :=
  m.country = none ∧ m.sourceName = none ∧ m.sourceType = none ∧ m.mobile = none ∧
  m.date = some date ∧ m.location.isSome = true ∧ m.city.isSome = true ∧
  m.attribution.isSome = true ∧ m.averagingPeriod.isSome = true ∧
  m.parameter.isSome = true ∧ m.value.isSome = true

theorem mkNsw_shape (date : DateOut) (city site : String) (p : IndexParam) (t : String) :
    NswShapeCore date (mkNswMeasurement (nswBase date city site) p t) := by
  simp [NswShapeCore, mkNswMeasurement, nswBase]

theorem cellsCollect_shape (ips : List IndexParam) (base : Measurement) :
    ∀ (cells : List Cell) (cc : Nat) (m : Measurement), m ∈ cellsCollect ips base cc cells →
      ∃ p t, m = mkNswMeasurement base p t
  | [], _, m, h => absurd h (by simp [cellsCollect])
  | c :: rest, cc, m, h => by
    rw [cellsCollect] at h
    rcases hf : findColMatch ips (cc + colIncrement c) with _ | p <;> simp only [hf] at h
    · exact cellsCollect_shape ips base rest _ m h
    · by_cases ht : c.text ≠ ""
      · rw [if_pos ht] at h
        rcases List.mem_cons.mp h with rfl | h2
        · exact ⟨p, c.text, rfl⟩
        · exact cellsCollect_shape ips base rest _ m h2
      · rw [if_neg ht] at h
        exact cellsCollect_shape ips base rest _ m h

theorem dataRow_sub (date : DateOut) (ips : List IndexParam) (region : String)
    (ms : List Measurement) (row : List Cell) :
    ∀ m ∈ (dataRow date ips region ms row).2, m ∈ ms ∨ NswShapeCore date m := by
  intro m hm
  unfold dataRow at hm
  by_cases hs : hasClassInRow row "site"
  · simp only [hs, if_true] at hm
    rcases List.mem_append.mp hm with h1 | h2
    · exact Or.inl h1
    · rcases cellsCollect_shape _ _ row _ m h2 with ⟨p, t, rfl⟩
      exact Or.inr (mkNsw_shape _ _ _ p t)
  · simp only [hs, if_false] at hm
    exact Or.inl hm

theorem rowsGo_shape (date : DateOut) :
    ∀ (rows : List (List Cell)) (idy : Nat) (ips : List IndexParam) (region : String)
      (ms : List Measurement) (out : List IndexParam × String × List Measurement),
      rowsGo date idy ips region ms rows = .ok out →
      ∀ m ∈ out.2.2, m ∈ ms ∨ NswShapeCore date m
  | [], idy, ips, region, ms, out, h => by
    rw [rowsGo, Except.ok.injEq] at h
    subst h
    intro m hm
    exact Or.inl hm
  | row :: rest, idy, ips, region, ms, out, h => by
    rw [rowsGo] at h
    by_cases h0 : idy = 0
    · rw [if_pos h0] at h
      rcases hf : row.foldlM row0Step (0, ips) with e | st <;> simp only [hf] at h
      · exact Except.noConfusion h
      · exact rowsGo_shape date rest (idy + 1) st.2 region ms out h
    · rw [if_neg h0] at h
      by_cases h1 : idy = 1
      · rw [if_pos h1] at h
        rcases hf : row.foldlM row1Step (0, ips) with e | st <;> simp only [hf] at h
        · exact Except.noConfusion h
        · exact rowsGo_shape date rest (idy + 1) st.2 region ms out h
      · rw [if_neg h1] at h
        intro m hm
        rcases rowsGo_shape date rest (idy + 1) ips _ _ out h m hm with hms | hsh
        · exact dataRow_sub date ips region ms row m hms
        · exact Or.inr hsh

theorem dedupStep_mem (fm : List Measurement) (m : Measurement) (fm2 : List Measurement)
    (h : dedupStep fm m = .ok fm2) : ∀ x ∈ fm2, x ∈ fm ∨ x = m := by
  intro x hx
  unfold dedupStep at h
  rcases hf : findMatch m fm with _ | p <;> simp only [hf] at h
  · rw [Except.ok.injEq] at h
    subst h
    rcases List.mem_append.mp hx with h1 | h2
    · exact Or.inl h1
    · exact Or.inr (by simpa using h2)
  · obtain ⟨i, f⟩ := p
    rcases hma : m.averagingPeriod with _ | ap
    · simp only [hma] at h
      exact Except.noConfusion h
    · rcases hfa : f.averagingPeriod with _ | fp
      · simp only [hma, hfa] at h
        exact Except.noConfusion h
      · simp only [hma, hfa] at h
        by_cases hlt : jsLt ap.value fp.value
        · rw [if_pos hlt, Except.ok.injEq] at h
          subst h
          rcases List.mem_append.mp ((List.eraseIdx_sublist _ _).subset hx) with h1 | h2
          · exact Or.inl h1
          · exact Or.inr (by simpa using h2)
        · rw [if_neg hlt, Except.ok.injEq] at h
          subst h
          exact Or.inl hx

theorem dedupGo_mem : ∀ (rest fm out : List Measurement), dedupGo fm rest = .ok out →
    ∀ x ∈ out, x ∈ fm ∨ x ∈ rest
  | [], fm, out, h => by
    rw [dedupGo, Except.ok.injEq] at h
    subst h
    intro x hx
    exact Or.inl hx
  | m :: rest, fm, out, h => by
    rw [dedupGo] at h
    rcases hs : dedupStep fm m with e | fm2 <;> simp only [hs] at h
    · exact Except.noConfusion h
    · intro x hx
      rcases dedupGo_mem rest fm2 out h x hx with h1 | h2
      · rcases dedupStep_mem fm m fm2 hs x h1 with h3 | h3
        · exact Or.inl h3
        · exact Or.inr (h3 ▸ List.mem_cons_self _ _)
      · exact Or.inr (List.mem_cons_of_mem _ h2)

theorem formatData_nsw_shape (doc : HtmlDoc) (res : FormatResult)
    (h : formatData_nsw doc = .ok res) :
    ∃ date, parseDate_nsw doc.dateHtml = .ok date ∧ res.name = "unused" ∧
      ∀ m ∈ res.measurements, NswShapeCore date m := by
  unfold formatData_nsw at h
  rcases hd : parseDate_nsw doc.dateHtml with e | date <;> simp only [hd] at h
  · exact Except.noConfusion h
  · rcases hr : rowsGo date 0 [] "" [] doc.rows with e | st <;> simp only [hr] at h
    · exact Except.noConfusion h
    · rcases hdd : dedupShortest st.2.2 with e | fin <;> simp only [hdd] at h
      · exact Except.noConfusion h
      · rw [Except.ok.injEq] at h
        subst h
        refine ⟨date, rfl, rfl, ?_⟩
        intro m hm
        have hm2 : m ∈ fin := by
          simp only [convertUnits, List.map_id] at hm
          exact (List.mem_filter.mp hm).1
        rcases dedupGo_mem st.2.2 [] fin hdd m hm2 with h0 | h1
        · exact absurd h0 (by simp)
        · rcases rowsGo_shape date doc.rows 0 [] "" [] st hr m h1 with h2 | h2
          · exact absurd h2 (by simp)
          · exact h2

theorem momentAddDays_zero (m : Moment) : momentAddDays m 0 = m := by
  cases m <;> rfl

/-! ## Concrete HTML sample document -/

/-- A one-pollutant, one-site table document: row 0 names NO2 in column 3,
row 1 gives it a 1-hour averaging period, row 2 is a region+site data row
with one reading. -/
def exDoc : HtmlDoc :=
  { dateHtml := some "NSW air quality<br>13 December 2019<br>11pm - 12 am"
    rows :=
      [[⟨some "2", "", "", false, []⟩,
        ⟨none, "", "<a href=q>NO2</a><br>NO2", true, []⟩],
       [⟨some "2", "", "", false, []⟩,
        ⟨none, "", "1-hour average", false, []⟩],
       [⟨none, "Sydney East", "", false, ["region"]⟩,
        ⟨none, "Rozelle", "", false, ["site"]⟩,
        ⟨none, "0.5", "", false, []⟩]] }

def exNswBase : Measurement := nswBase exDate "Sydney East" "Rozelle"

def exNswMeas : Measurement := mkNswMeasurement exNswBase ⟨3, "no2", some "1"⟩ "0.5"

def exNswRes : FormatResult := { name := "unused", measurements := [exNswMeas] }

/-- C7: the HTML formatter's timestamp comes from the one header-cell
parse; the end-of-range time is `timeString[2] + timeString[3]` of the
third `<br>`-section, exactly one calendar day is added when it reads
`12am` and none otherwise; and every emitted measurement carries that one
parsed date. -/
theorem claim_C7 :
    (∀ s part2, (jsSplit s "<br>")[2]? = some part2 →
      (jsConcatIdx (jsSplit part2 " ") 2 3 = "12am" →
        parseDate_nsw (some s) = .ok (dateOutOfMoment (momentAddDays
          (momentDMY (((jsSplit s "<br>")[1]?.getD "") ++
            jsConcatIdx (jsSplit part2 " ") 2 3)) 1))) ∧
      (jsConcatIdx (jsSplit part2 " ") 2 3 ≠ "12am" →
        parseDate_nsw (some s) = .ok (dateOutOfMoment
          (momentDMY (((jsSplit s "<br>")[1]?.getD "") ++
            jsConcatIdx (jsSplit part2 " ") 2 3))))) ∧
    (∀ doc res, formatData_nsw doc = .ok res →
      ∃ d, parseDate_nsw doc.dateHtml = .ok d ∧
        ∀ m ∈ res.measurements, m.date = some d) := by
  constructor
  · intro s part2 h2
    constructor
    · intro ht
      simp only [parseDate_nsw, h2, ht, if_pos]
    · intro ht
      simp only [parseDate_nsw, h2, if_neg ht, momentAddDays_zero]
  · intro doc res h
    rcases formatData_nsw_shape doc res h with ⟨d, hd, _, hms⟩
    exact ⟨d, hd, fun m hm => (hms m hm).2.2.2.2.1⟩

/-- Witness for C7: the sample header (whose range ends at `12am`, adding
a day) and the sample document. -/
theorem claim_C7_witness :
    (jsConcatIdx (jsSplit "11pm - 12 am" " ") 2 3 = "12am" →
      parseDate_nsw (some "NSW air quality<br>13 December 2019<br>11pm - 12 am") =
        .ok (dateOutOfMoment (momentAddDays
          (momentDMY (((jsSplit "NSW air quality<br>13 December 2019<br>11pm - 12 am"
              "<br>")[1]?.getD "") ++
            jsConcatIdx (jsSplit "11pm - 12 am" " ") 2 3)) 1))) ∧
    (∃ d, parseDate_nsw exDoc.dateHtml = .ok d ∧
      ∀ m ∈ exNswRes.measurements, m.date = some d) :=
  ⟨(claim_C7.1 "NSW air quality<br>13 December 2019<br>11pm - 12 am" "11pm - 12 am"
      (by decide)).1,
   claim_C7.2 exDoc exNswRes (by decide)⟩

theorem measurementsOfRow_conforms (source : Source) (row : RowAu) (l : List Measurement)
    (h : measurementsOfRow source row = .ok l) (hn : row.name.isSome = true) :
    ∀ m ∈ l, conformsCanonical m := by
  intro m hm
  unfold measurementsOfRow at h
  rcases hg : row.gps with _ | g <;> simp only [hg] at h
  · exact Except.noConfusion h
  · rw [Except.ok.injEq] at h
    subst h
    rcases List.mem_filterMap.mp hm with ⟨k, hk_mem, hk⟩
    by_cases hp : (readKey row k).isSome
    · rw [if_pos hp, Option.some.injEq] at hk
      subst hk
      have hu : (unitsAuF (typesAuF k)).isSome = true := by
        have hk5 : k = "no2" ∨ k = "o3_1hr" ∨ k = "co" ∨ k = "pm10" ∨ k = "pm2_5" := by
          simpa [typesKeys] using hk_mem
        rcases hk5 with rfl | rfl | rfl | rfl | rfl <;> rfl
      simp [conformsCanonical, mkAuMeasurement, auBase, hn, hu]
    · rw [if_neg hp] at hk
      exact absurd hk (by simp)

theorem auGo_conforms (source : Source) : ∀ (rows : List RowAu) (ms : List Measurement),
    auGo source rows = .ok ms → (∀ r ∈ rows, r.name.isSome = true) →
    ∀ m ∈ ms, conformsCanonical m
  | [], ms, h, _ => by
    rw [auGo, Except.ok.injEq] at h
    subst h
    intro m hm
    exact absurd hm (by simp)
  | r :: rest, ms, h, hn => by
    rw [auGo] at h
    rcases h1 : measurementsOfRow source r with e | ml <;> simp only [h1] at h
    · exact Except.noConfusion h
    · rcases h2 : auGo source rest with e | tail <;> simp only [h2] at h
      · exact Except.noConfusion h
      · rw [Except.ok.injEq] at h
        subst h
        intro m hm
        rcases List.mem_append.mp hm with hml | htl
        · exact measurementsOfRow_conforms source r ml h1
            (hn r (List.mem_cons_self _ _)) m hml
        · exact auGo_conforms source rest tail h2
            (fun x hx => hn x (List.mem_cons_of_mem _ hx)) m htl

/-- C8 (amended): the JSON adapter's measurements carry the full canonical
schema (given each input row names its site); the HTML adapter's
measurements always carry location, city, date, attribution,
averagingPeriod, parameter and value but never country, sourceName,
sourceType or mobile; both adapters wrap the list as
`{name: 'unused', measurements}`. -/
theorem claim_C8 :
    (∀ (source : Source) (rows : List RowAu) (res : FormatResult),
      formatData_auact source rows = .ok res →
      (∀ r ∈ rows, r.name.isSome = true) →
      res.name = "unused" ∧ ∀ m ∈ res.measurements, conformsCanonical m) ∧
    (∀ (doc : HtmlDoc) (res : FormatResult), formatData_nsw doc = .ok res →
      res.name = "unused" ∧ ∀ m ∈ res.measurements,
        m.country = none ∧ m.sourceName = none ∧ m.sourceType = none ∧
        m.mobile = none ∧ m.location.isSome = true ∧ m.city.isSome = true ∧
        m.date.isSome = true ∧ m.attribution.isSome = true ∧
        m.averagingPeriod.isSome = true ∧ m.parameter.isSome = true ∧
        m.value.isSome = true) := by
  constructor
  · intro source rows res h hn
    unfold formatData_auact at h
    rcases hg : auGo source rows with e | ms <;> simp only [hg] at h
    · exact Except.noConfusion h
    · rw [Except.ok.injEq] at h
      subst h
      exact ⟨rfl, auGo_conforms source rows ms hg hn⟩
  · intro doc res h
    rcases formatData_nsw_shape doc res h with ⟨d, _, hname, hms⟩
    refine ⟨hname, fun m hm => ?_⟩
    rcases hms m hm with ⟨h1, h2, h3, h4, h5, h6, h7, h8, h9, h10, h11⟩
    exact ⟨h1, h2, h3, h4, h6, h7, by rw [h5]; rfl, h8, h9, h10, h11⟩

/-- Counterexample to C8 as stated: the sample document's one measurement
(from the HTML adapter) lacks `country`, `sourceName`, `sourceType` and
`mobile`, so it does not conform to the full canonical schema. -/
theorem claim_C8_counterexample :
    formatData_nsw exDoc = .ok exNswRes ∧
    exNswMeas ∈ exNswRes.measurements ∧ ¬ conformsCanonical exNswMeas :=
  ⟨by decide, by decide, by decide⟩

/-- Witness for C8 (amended) at the concrete sample inputs of both
adapters. -/
theorem claim_C8_witness :
    (exAuRes.name = "unused" ∧ ∀ m ∈ exAuRes.measurements, conformsCanonical m) ∧
    (exNswRes.name = "unused" ∧ ∀ m ∈ exNswRes.measurements,
      m.country = none ∧ m.sourceName = none ∧ m.sourceType = none ∧
      m.mobile = none ∧ m.location.isSome = true ∧ m.city.isSome = true ∧
      m.date.isSome = true ∧ m.attribution.isSome = true ∧
      m.averagingPeriod.isSome = true ∧ m.parameter.isSome = true ∧
      m.value.isSome = true) :=
  ⟨claim_C8.1 exSource [exRow] exAuRes (by decide) (by decide),
   claim_C8.2 exDoc exNswRes (by decide)⟩

/-! ## The deduplication pass keeps the shortest averaging period -/

/-- `m.averagingPeriod.value` as the loop reads it (`none` when either the
field or its value is missing). -/
def avgVal (m : Measurement) : JsNum :=
  match m.averagingPeriod with
  | some ap => ap.value
  | none => none

/-- The measurement has a numeric averaging-period value. -/
def avgSome (m : Measurement) : Prop :=
  (avgVal m).isSome = true

instance (m : Measurement) : Decidable (avgSome m) := by
  unfold avgSome; infer_instance

/-- The numeric averaging-period value (for measurements satisfying
`avgSome`). -/
def avgQ (m : Measurement) : ℚ :=
  (avgVal m).getD 0

theorem avgSome_elim (m : Measurement) (h : avgSome m) :
    ∃ ap q, m.averagingPeriod = some ap ∧ ap.value = some q := by
  unfold avgSome avgVal at h
  rcases hmap : m.averagingPeriod with _ | ap
  · simp only [hmap] at h
    exact absurd h (by simp)
  · simp only [hmap] at h
    rcases hv : ap.value with _ | q
    · rw [hv] at h
      exact absurd h (by simp)
    · exact ⟨ap, q, rfl, hv⟩

theorem sameKey_symm {a b : Measurement} (h : sameKey a b) : sameKey b a :=
  ⟨h.1.symm, h.2.symm⟩

theorem sameKey_trans {a b c : Measurement} (h1 : sameKey a b) (h2 : sameKey b c) :
    sameKey a c :=
  ⟨h1.1.trans h2.1, h1.2.trans h2.2⟩

theorem sameKey_refl (a : Measurement) : sameKey a a := ⟨rfl, rfl⟩

theorem findMatch_none (m : Measurement) :
    ∀ fm, findMatch m fm = none → ∀ x ∈ fm, ¬ sameKey x m
  | [], _, x, hx => absurd hx (by simp)
  | y :: ys, h, x, hx => by
    rw [findMatch] at h
    by_cases hk : sameKey y m
    · rw [if_pos hk] at h
      exact Option.noConfusion h
    · rw [if_neg hk] at h
      have h0 : findMatch m ys = none := by
        rcases hfm : findMatch m ys with _ | p
        · rfl
        · rw [hfm] at h
          exact Option.noConfusion h
      rcases List.mem_cons.mp hx with rfl | h2
      · exact hk
      · exact findMatch_none m ys h0 x h2

theorem findMatch_some (m : Measurement) :
    ∀ fm i f, findMatch m fm = some (i, f) →
      ∃ l1 l2, fm = l1 ++ f :: l2 ∧ i = l1.length ∧
        (∀ x ∈ l1, ¬ sameKey x m) ∧ sameKey f m
  | [], i, f, h => absurd h (by simp [findMatch])
  | y :: ys, i, f, h => by
    rw [findMatch] at h
    by_cases hk : sameKey y m
    · rw [if_pos hk, Option.some.injEq] at h
      injection h with h1 h2
      subst h1
      subst h2
      exact ⟨[], ys, rfl, rfl, by simp, hk⟩
    · rw [if_neg hk] at h
      rcases hfm : findMatch m ys with _ | p
      · rw [hfm] at h
        exact Option.noConfusion h
      · obtain ⟨j, g⟩ := p
        rw [hfm] at h
        simp only [Option.map_some'] at h
        rw [Option.some.injEq] at h
        injection h with h1 h2
        subst h1
        subst h2
        rcases findMatch_some m ys j g hfm with ⟨l1, l2, hfm2, hj, hl1, hg⟩
        refine ⟨y :: l1, l2, by rw [hfm2, List.cons_append], by simp [hj], ?_, hg⟩
        intro x hx
        rcases List.mem_cons.mp hx with rfl | h2
        · exact hk
        · exact hl1 x h2

theorem eraseIdx_len (x : Measurement) :
    ∀ (l1 l2 : List Measurement), (l1 ++ x :: l2).eraseIdx l1.length = l1 ++ l2
  | [], l2 => rfl
  | y :: l1, l2 => by
    simp only [List.cons_append, List.length_cons, List.eraseIdx_cons_succ]
    rw [eraseIdx_len x l1 l2]

/-- Loop invariant of the deduplication pass over the processed prefix
`pre` and the accumulator `fm`: the accumulator's entries come from the
prefix, each attains the minimum averaging period over its key within the
prefix, every prefix entry's key is represented, and the accumulator's
keys are pairwise distinct. -/
def DedupInv (pre fm : List Measurement) : Prop :=
  (∀ m ∈ fm, m ∈ pre) ∧
  (∀ m ∈ fm, ∀ x ∈ pre, sameKey x m → avgQ m ≤ avgQ x) ∧
  (∀ x ∈ pre, ∃ m ∈ fm, sameKey m x) ∧
  fm.Pairwise (fun a b => ¬ sameKey a b)

theorem dedupGo_inv : ∀ (rest pre fm : List Measurement),
    (∀ x ∈ pre, avgSome x) → (∀ x ∈ rest, avgSome x) → DedupInv pre fm →
    ∃ out, dedupGo fm rest = .ok out ∧ DedupInv (pre ++ rest) out
  | [], pre, fm, _, _, inv => ⟨fm, by rw [dedupGo], by simpa using inv⟩
  | m :: rest, pre, fm, hpre, hrest, inv => by
    obtain ⟨inv1, inv2, inv3, inv4⟩ := inv
    have hm : avgSome m := hrest m (List.mem_cons_self _ _)
    have hrest2 : ∀ x ∈ rest, avgSome x := fun x hx => hrest x (List.mem_cons_of_mem _ hx)
    have hpre2 : ∀ x ∈ pre ++ [m], avgSome x := by
      intro x hx
      rcases List.mem_append.mp hx with h1 | h2
      · exact hpre x h1
      · exact (List.mem_singleton.mp h2).symm ▸ hm
    rcases hf : findMatch m fm with _ | p
    · -- no existing entry with this key: push at the end
      have hnm : ∀ x ∈ fm, ¬ sameKey x m := findMatch_none m fm hf
      have hinv_new : DedupInv (pre ++ [m]) (fm ++ [m]) := by
        refine ⟨?_, ?_, ?_, ?_⟩
        · intro g hg
          rcases List.mem_append.mp hg with h1 | h2
          · exact List.mem_append.mpr (Or.inl (inv1 g h1))
          · exact List.mem_append.mpr (Or.inr h2)
        · intro g hg x hx hkey
          rcases List.mem_append.mp hg with hg1 | hg2
          · rcases List.mem_append.mp hx with hx1 | hx2
            · exact inv2 g hg1 x hx1 hkey
            · have hxm : x = m := List.mem_singleton.mp hx2
              rw [hxm] at hkey
              exact absurd (sameKey_symm hkey) (hnm g hg1)
          · have hgm : g = m := List.mem_singleton.mp hg2
            rw [hgm] at hkey ⊢
            rcases List.mem_append.mp hx with hx1 | hx2
            · rcases inv3 x hx1 with ⟨r, hr, hrx⟩
              exact absurd (sameKey_trans hrx hkey) (hnm r hr)
            · have hxm : x = m := List.mem_singleton.mp hx2
              rw [hxm]
        · intro x hx
          rcases List.mem_append.mp hx with hx1 | hx2
          · rcases inv3 x hx1 with ⟨r, hr, hrx⟩
            exact ⟨r, List.mem_append.mpr (Or.inl hr), hrx⟩
          · have hxm : x = m := List.mem_singleton.mp hx2
            rw [hxm]
            exact ⟨m, List.mem_append.mpr (Or.inr (List.mem_singleton.mpr rfl)),
              sameKey_refl m⟩
        · rw [List.pairwise_append]
          refine ⟨inv4, by simp, ?_⟩
          intro a ha b hb
          have hbm : b = m := List.mem_singleton.mp hb
          rw [hbm]
          exact hnm a ha
      rcases dedupGo_inv rest (pre ++ [m]) (fm ++ [m]) hpre2 hrest2 hinv_new with
        ⟨out, hout, hinv⟩
      have hstep : dedupStep fm m = .ok (fm ++ [m]) := by
        unfold dedupStep
        rw [hf]
      refine ⟨out, ?_, ?_⟩
      · rw [dedupGo]
        simp only [hstep]
        exact hout
      · simpa [List.append_assoc] using hinv
    · -- an entry with this key exists at index i
      obtain ⟨i, f⟩ := p
      rcases findMatch_some m fm i f hf with ⟨l1, l2, hfm_eq, hi, hl1, hfkey⟩
      have hf_mem : f ∈ fm := by
        rw [hfm_eq]
        exact List.mem_append.mpr (Or.inr (List.mem_cons_self _ _))
      obtain ⟨fap, fq, hfap, hfqv⟩ := avgSome_elim f (hpre f (inv1 f hf_mem))
      obtain ⟨amp, mq, hmap, hmqv⟩ := avgSome_elim m hm
      have havgm : avgQ m = mq := by simp [avgQ, avgVal, hmap, hmqv]
      have havgf : avgQ f = fq := by simp [avgQ, avgVal, hfap, hfqv]
      have huniq : ∀ r ∈ fm, sameKey r m → r = f := by
        intro r hr hrm
        rw [hfm_eq] at hr
        rcases List.mem_append.mp hr with hr1 | hr2
        · exact absurd hrm (hl1 r hr1)
        · rcases List.mem_cons.mp hr2 with rfl | hr3
          · rfl
          · have hpw := inv4
            rw [hfm_eq] at hpw
            rcases List.pairwise_append.mp hpw with ⟨_, hp2, _⟩
            rcases List.pairwise_cons.mp hp2 with ⟨hf_l2, _⟩
            exact absurd (sameKey_trans hfkey (sameKey_symm hrm)) (hf_l2 r hr3)
      have hstep_def : dedupStep fm m =
          (if jsLt amp.value fap.value then .ok ((fm ++ [m]).eraseIdx i) else .ok fm) := by
        unfold dedupStep
        simp only [hf, hmap, hfap]
      by_cases hlt : mq < fq
      · -- strictly shorter averaging period: replace (push then splice)
        have hjs : jsLt amp.value fap.value = true := by
          rw [hmqv, hfqv]
          simpa [jsLt] using hlt
        have hstep : dedupStep fm m = .ok ((fm ++ [m]).eraseIdx i) := by
          rw [hstep_def]
          simp [hjs]
        have herase : (fm ++ [m]).eraseIdx i = l1 ++ (l2 ++ [m]) := by
          rw [hfm_eq, hi]
          have hshape : (l1 ++ f :: l2) ++ [m] = l1 ++ f :: (l2 ++ [m]) := by simp
          rw [hshape, eraseIdx_len]
        have hpw := inv4
        rw [hfm_eq] at hpw
        rcases List.pairwise_append.mp hpw with ⟨hpl1, hp2, hcross⟩
        rcases List.pairwise_cons.mp hp2 with ⟨hf_l2, hpl2⟩
        have hmem_of : ∀ g, g ∈ l1 ∨ g ∈ l2 → g ∈ fm := by
          intro g hg
          rw [hfm_eq]
          rcases hg with h1 | h2
          · exact List.mem_append.mpr (Or.inl h1)
          · exact List.mem_append.mpr (Or.inr (List.mem_cons_of_mem _ h2))
        have hold_not_m : ∀ g, g ∈ l1 ∨ g ∈ l2 → ¬ sameKey m g := by
          intro g hg hkey
          have hgf : g = f := huniq g (hmem_of g hg) (sameKey_symm hkey)
          subst hgf
          rcases hg with h1 | h2
          · exact hl1 g h1 hfkey
          · exact hf_l2 g h2 (sameKey_refl g)
        have hinv_new : DedupInv (pre ++ [m]) (l1 ++ (l2 ++ [m])) := by
          refine ⟨?_, ?_, ?_, ?_⟩
          · intro g hg
            rcases List.mem_append.mp hg with h1 | h2
            · exact List.mem_append.mpr (Or.inl (inv1 g (hmem_of g (Or.inl h1))))
            · rcases List.mem_append.mp h2 with h3 | h4
              · exact List.mem_append.mpr (Or.inl (inv1 g (hmem_of g (Or.inr h3))))
              · exact List.mem_append.mpr (Or.inr h4)
          · intro g hg x hx hkey
            have hg_split : (g ∈ l1 ∨ g ∈ l2) ∨ g = m := by
              rcases List.mem_append.mp hg with h1 | h2
              · exact Or.inl (Or.inl h1)
              · rcases List.mem_append.mp h2 with h3 | h4
                · exact Or.inl (Or.inr h3)
                · exact Or.inr (List.mem_singleton.mp h4)
            rcases hg_split with hold | hgm
            · rcases List.mem_append.mp hx with hx1 | hx2
              · exact inv2 g (hmem_of g hold) x hx1 hkey
              · have hxm : x = m := List.mem_singleton.mp hx2
                rw [hxm] at hkey
                exact absurd hkey (hold_not_m g hold)
            · rw [hgm] at hkey ⊢
              rcases List.mem_append.mp hx with hx1 | hx2
              · rcases inv3 x hx1 with ⟨r, hr, hrx⟩
                have hrf : r = f := huniq r hr (sameKey_trans hrx hkey)
                have hfx : avgQ f ≤ avgQ x :=
                  inv2 f hf_mem x hx1 (sameKey_symm (hrf ▸ hrx))
                rw [havgm]
                rw [havgf] at hfx
                exact le_trans (le_of_lt hlt) hfx
              · have hxm : x = m := List.mem_singleton.mp hx2
                rw [hxm]
          · intro x hx
            rcases List.mem_append.mp hx with hx1 | hx2
            · rcases inv3 x hx1 with ⟨r, hr, hrx⟩
              by_cases hrf : r = f
              · refine ⟨m, List.mem_append.mpr (Or.inr (List.mem_append.mpr
                    (Or.inr (List.mem_singleton.mpr rfl)))), ?_⟩
                exact sameKey_trans (sameKey_symm hfkey) (hrf ▸ hrx)
              · have hr_split : r ∈ l1 ∨ r ∈ l2 := by
                  rw [hfm_eq] at hr
                  rcases List.mem_append.mp hr with h1 | h2
                  · exact Or.inl h1
                  · rcases List.mem_cons.mp h2 with h3 | h4
                    · exact absurd h3 hrf
                    · exact Or.inr h4
                rcases hr_split with h1 | h2
                · exact ⟨r, List.mem_append.mpr (Or.inl h1), hrx⟩
                · exact ⟨r, List.mem_append.mpr (Or.inr (List.mem_append.mpr (Or.inl h2))),
                    hrx⟩
            · have hxm : x = m := List.mem_singleton.mp hx2
              rw [hxm]
              exact ⟨m, List.mem_append.mpr (Or.inr (List.mem_append.mpr
                (Or.inr (List.mem_singleton.mpr rfl)))), sameKey_refl m⟩
          · rw [List.pairwise_append]
            refine ⟨hpl1, ?_, ?_⟩
            · rw [List.pairwise_append]
              refine ⟨hpl2, by simp, ?_⟩
              intro a ha b hb
              have hbm : b = m := List.mem_singleton.mp hb
              rw [hbm]
              exact fun hab => hold_not_m a (Or.inr ha) (sameKey_symm hab)
            · intro a ha b hb
              rcases List.mem_append.mp hb with hb1 | hb2
              · exact hcross a ha b (List.mem_cons_of_mem _ hb1)
              · have hbm : b = m := List.mem_singleton.mp hb2
                rw [hbm]
                exact hl1 a ha
        rcases dedupGo_inv rest (pre ++ [m]) (l1 ++ (l2 ++ [m])) hpre2 hrest2 hinv_new with
          ⟨out, hout, hinv⟩
        refine ⟨out, ?_, ?_⟩
        · rw [dedupGo]
          simp only [hstep, herase]
          exact hout
        · simpa [List.append_assoc] using hinv
      · -- not strictly shorter: the incoming measurement is discarded
        have hjs : jsLt amp.value fap.value = false := by
          rw [hmqv, hfqv]
          simpa [jsLt] using hlt
        have hstep : dedupStep fm m = .ok fm := by
          rw [hstep_def]
          simp [hjs]
        have hinv_new : DedupInv (pre ++ [m]) fm := by
          refine ⟨?_, ?_, ?_, inv4⟩
          · intro g hg
            exact List.mem_append.mpr (Or.inl (inv1 g hg))
          · intro g hg x hx hkey
            rcases List.mem_append.mp hx with hx1 | hx2
            · exact inv2 g hg x hx1 hkey
            · have hxm : x = m := List.mem_singleton.mp hx2
              rw [hxm] at hkey ⊢
              have hgf : g = f := huniq g hg (sameKey_symm hkey)
              rw [hgf, havgm, havgf]
              exact le_of_not_lt hlt
          · intro x hx
            rcases List.mem_append.mp hx with hx1 | hx2
            · exact inv3 x hx1
            · have hxm : x = m := List.mem_singleton.mp hx2
              rw [hxm]
              exact ⟨f, hf_mem, hfkey⟩
        rcases dedupGo_inv rest (pre ++ [m]) fm hpre2 hrest2 hinv_new with ⟨out, hout, hinv⟩
        refine ⟨out, ?_, ?_⟩
        · rw [dedupGo]
          simp only [hstep]
          exact hout
        · simpa [List.append_assoc] using hinv

/-- C1: the deduplication pass succeeds on measurement lists with numeric
averaging periods and keeps exactly one entry per (location, parameter)
key — one attaining the minimum averaging-period value for that key among
the accumulated entries — discarding the rest; in particular of a 1-hour
and a 24-hour measurement for the same location and parameter only the
1-hour one survives, in either order. -/
theorem claim_C1 :
    (∀ ms : List Measurement, (∀ x ∈ ms, avgSome x) →
      ∃ out, dedupShortest ms = .ok out ∧
        (∀ m ∈ out, m ∈ ms) ∧
        (∀ m ∈ out, ∀ x ∈ ms, sameKey x m → avgQ m ≤ avgQ x) ∧
        (∀ x ∈ ms, ∃ m ∈ out, sameKey m x) ∧
        out.Pairwise (fun a b => ¬ sameKey a b)) ∧
    (dedupShortest [exMeas "L" "o3" 24, exMeas "L" "o3" 1] = .ok [exMeas "L" "o3" 1] ∧
      dedupShortest [exMeas "L" "o3" 1, exMeas "L" "o3" 24] = .ok [exMeas "L" "o3" 1]) := by
  constructor
  · intro ms h
    have inv0 : DedupInv [] [] := ⟨by simp, by simp, by simp, List.Pairwise.nil⟩
    rcases dedupGo_inv ms [] [] (by simp) h inv0 with ⟨out, hout, hinv⟩
    obtain ⟨i1, i2, i3, i4⟩ := hinv
    exact ⟨out, hout, by simpa using i1, by simpa using i2, by simpa using i3, i4⟩
  · exact ⟨by decide, by decide⟩

/-- Witness for C1 on a concrete 24-hour/1-hour pair. -/
theorem claim_C1_witness :
    ∃ out, dedupShortest [exMeas "A" "no2" 24, exMeas "A" "no2" 1] = .ok out ∧
      (∀ m ∈ out, m ∈ [exMeas "A" "no2" 24, exMeas "A" "no2" 1]) ∧
      (∀ m ∈ out, ∀ x ∈ [exMeas "A" "no2" 24, exMeas "A" "no2" 1],
        sameKey x m → avgQ m ≤ avgQ x) ∧
      (∀ x ∈ [exMeas "A" "no2" 24, exMeas "A" "no2" 1], ∃ m ∈ out, sameKey m x) ∧
      out.Pairwise (fun a b => ¬ sameKey a b) :=
  claim_C1.1 [exMeas "A" "no2" 24, exMeas "A" "no2" 1] (by decide)

end OpenaqFetch
